import Mathlib

/-!
Verification of the Heat2D parallelized solver (`mpibackup10.c`).

The development embeds the numerical core of the program — the stencil
kernel (`updateInternal`, `updateExternal` with its four strip
sub-passes), the initializer `inidat`, the partitioner and neighbor
assignment from `main`, the scatter/gather data movement, and the
lock-step simulation loop — as pure Lean functions over grids
`ℤ → ℤ → ℚ` (the C `float` arithmetic is modelled by exact rationals,
`cx = cy = 1/10`).  Loop nests that assign independent cells are
embedded as bulk functional updates with exactly the source's loop
bounds; the distributed exchange/compute step is embedded as its
deterministic lock-step equivalent.
-/

namespace Heat2D

/-- x dimension of problem grid (`NXPROB` in the source). -/
def NXPROB : ℕ := 256

/-- y dimension of problem grid (`NYPROB` in the source). -/
def NYPROB : ℕ := 320

/-- A (conceptually infinite) 2-D buffer of values; the program only ever
reads/writes the finitely many cells of a `(rows+2) x (columns+2)` block
or of the `NXPROB x NYPROB` global field. -/
def Grid : Type := ℤ → ℤ → ℚ

/-- The `struct Parms` of the source. -/
structure Parms where
  cx : ℚ
  cy : ℚ

/-- `parms = {0.1, 0.1}` from the source. -/
def parms : Parms := { cx := 1/10, cy := 1/10 }

/-- The five-point stencil expression that all four update loops of the
source share: `u1[ix][iy] + cx*(u1[ix+1][iy]+u1[ix-1][iy]-2*u1[ix][iy])
+ cy*(u1[ix][iy+1]+u1[ix][iy-1]-2*u1[ix][iy])`. -/
def stencil (u1 : Grid) (ix iy : ℤ) : ℚ :=
  u1 ix iy
    + parms.cx * (u1 (ix + 1) iy + u1 (ix - 1) iy - 2 * u1 ix iy)
    + parms.cy * (u1 ix (iy + 1) + u1 ix (iy - 1) - 2 * u1 ix iy)

/-- `updateInternal(start, end, ny, u1, u2)`: the double loop
`for (ix = start; ix <= end; ix++) for (iy = 2; iy <= ny-1; iy++)`
writing the stencil of `u1` into `u2`. -/
def updateInternal (start endv ny : ℤ) (u1 u2 : Grid) : Grid :=
  fun ix iy =>
    if start ≤ ix ∧ ix ≤ endv ∧ 2 ≤ iy ∧ iy ≤ ny - 1 then
      stencil u1 ix iy
    else u2 ix iy

/-- First strip sub-pass of `updateExternal` ("CALCULATING FIRST EXTERNAL
ROW"): row `start` (resp. `start+1` without an up neighbor), columns from
1 (resp. 2 without a left neighbor) to `ny-3` after `ny += 2` — the source
sets `endny = ny-3` in both branches of its `right` test. -/
def extFirstRow (start ny : ℤ) (right left up : Bool) (u1 u2 : Grid) : Grid :=
  let ny' := ny + 2
  let ix := if up then start else start + 1
  let is := if left then 1 else 2
  let endny := if right then ny' - 3 else ny' - 3
  fun a b => if a = ix ∧ is ≤ b ∧ b ≤ endny then stencil u1 a b else u2 a b

/-- Second strip sub-pass of `updateExternal` ("CALCULATING LAST EXTERNAL
ROW"): row `end-2` (resp. `end-3` without a down neighbor) after
`end += 2`, columns from 1 (resp. 2) to `ny-2` (resp. `ny-3` without a
right neighbor). -/
def extLastRow (endv ny : ℤ) (right left down : Bool) (u1 u2 : Grid) : Grid :=
  let ny' := ny + 2
  let end' := endv + 2
  let ix := if down then end' - 2 else end' - 3
  let is := if left then 1 else 2
  let endny := if right then ny' - 2 else ny' - 3
  fun a b => if a = ix ∧ is ≤ b ∧ b ≤ endny then stencil u1 a b else u2 a b

/-- Third strip sub-pass of `updateExternal` ("CALCULATING FIRST EXTERNAL
COLUMN"): column 1 (resp. 2 without a left neighbor), rows from `start`
(resp. `start+1`) strictly below `end-2` (resp. `end-3` without a down
neighbor). -/
def extFirstCol (start endv : ℤ) (left up down : Bool) (u1 u2 : Grid) : Grid :=
  let end' := endv + 2
  let iy := if left then 1 else 2
  let is := if up then start else start + 1
  let endloop := if down then end' - 2 else end' - 3
  fun a b => if b = iy ∧ is ≤ a ∧ a < endloop then stencil u1 a b else u2 a b

/-- Fourth strip sub-pass of `updateExternal` ("CALCULATING LAST EXTERNAL
COLUMN"): column `ny-2` (resp. `ny-3` without a right neighbor), same row
range as the third sub-pass. -/
def extLastCol (start endv ny : ℤ) (right up down : Bool) (u1 u2 : Grid) : Grid :=
  let ny' := ny + 2
  let end' := endv + 2
  let iy := if right then ny' - 2 else ny' - 3
  let is := if up then start else start + 1
  let endloop := if down then end' - 2 else end' - 3
  fun a b => if b = iy ∧ is ≤ a ∧ a < endloop then stencil u1 a b else u2 a b

/-- `updateExternal(start, end, ny, right, left, up, down, u1, u2)`: the
four strip sub-passes run in source order.  Each pass reads only `u1`
(distinct from `u2` at every call site), so their sequential composition
is their functional composition on `u2`. -/
def updateExternal (start endv ny : ℤ) (right left up down : Bool)
    (u1 u2 : Grid) : Grid :=
  extLastCol start endv ny right up down u1
    (extFirstCol start endv left up down u1
      (extLastRow endv ny right left down u1
        (extFirstRow start ny right left up u1 u2)))

/-- The set of cells assigned by some strip sub-pass of
`updateExternal start endv ny …` (same bounds as the four passes). -/
def extWritten (start endv ny : ℤ) (right left up down : Bool)
    (a b : ℤ) : Prop :=
  (a = (if up then start else start + 1) ∧
    (if left then 1 else 2) ≤ b ∧ b ≤ ny + 2 - 3) ∨
  (a = (if down then endv + 2 - 2 else endv + 2 - 3) ∧
    (if left then 1 else 2) ≤ b ∧
    b ≤ (if right then ny + 2 - 2 else ny + 2 - 3)) ∨
  (b = (if left then 1 else 2) ∧
    (if up then start else start + 1) ≤ a ∧
    a < (if down then endv + 2 - 2 else endv + 2 - 3)) ∨
  (b = (if right then ny + 2 - 2 else ny + 2 - 3) ∧
    (if up then start else start + 1) ≤ a ∧
    a < (if down then endv + 2 - 2 else endv + 2 - 3))

instance (start endv ny : ℤ) (right left up down : Bool) (a b : ℤ) :
    Decidable (extWritten start endv ny right left up down a b) := by
  unfold extWritten; infer_instance

/-- Four layered conditional writes of the same value collapse to a
single conditional write guarded by the disjunction of the conditions. -/
theorem ite_or_layers {α : Type} (p1 p2 p3 p4 : Prop) [Decidable p1]
    [Decidable p2] [Decidable p3] [Decidable p4] (v w : α) :
    (if p4 then v else if p3 then v else if p2 then v else if p1 then v else w)
      = if p1 ∨ p2 ∨ p3 ∨ p4 then v else w := by
  by_cases h1 : p1 <;> by_cases h2 : p2 <;> by_cases h3 : p3 <;>
    by_cases h4 : p4 <;> simp [h1, h2, h3, h4]

/-- Pointwise characterization of `updateExternal`: a cell holds the
stencil of `u1` iff some sub-pass writes it, otherwise it keeps its `u2`
value (all sub-passes write the same value at overlapping cells). -/
theorem updateExternal_apply (start endv ny : ℤ) (right left up down : Bool)
    (u1 u2 : Grid) (a b : ℤ) :
    updateExternal start endv ny right left up down u1 u2 a b =
      if extWritten start endv ny right left up down a b then
        stencil u1 a b
      else u2 a b := by
  unfold updateExternal extFirstRow extLastRow extFirstCol extLastCol
  dsimp only
  rw [ite_or_layers]
  unfold extWritten
  simp only [ite_self]

/-- The one-cell-wide exterior ring cells of a `rows x columns` block (in
1-indexed local coordinates) that are due an update by the exterior pass:
ring cells none of whose sides is a domain edge (an absent neighbor). -/
def exteriorDue (rows columns : ℤ) (right left up down : Bool)
    (ix iy : ℤ) : Prop :=
  (1 ≤ ix ∧ ix ≤ rows ∧ 1 ≤ iy ∧ iy ≤ columns) ∧
  (ix = 1 ∨ ix = rows ∨ iy = 1 ∨ iy = columns) ∧
  (ix = 1 → up = true) ∧ (ix = rows → down = true) ∧
  (iy = 1 → left = true) ∧ (iy = columns → right = true)

instance (rows columns : ℤ) (right left up down : Bool) (ix iy : ℤ) :
    Decidable (exteriorDue rows columns right left up down ix iy) := by
  unfold exteriorDue; infer_instance

/-- A cell of the boundary-side row/column of a block: a first/last
interior row/column whose adjacent side is a domain edge (no neighbor). -/
def boundarySideCell (rows columns : ℤ) (right left up down : Bool)
    (ix iy : ℤ) : Prop :=
  (1 ≤ ix ∧ ix ≤ rows ∧ 1 ≤ iy ∧ iy ≤ columns) ∧
  ((up = false ∧ ix = 1) ∨ (down = false ∧ ix = rows) ∨
   (left = false ∧ iy = 1) ∨ (right = false ∧ iy = columns))

instance (rows columns : ℤ) (right left up down : Bool) (ix iy : ℤ) :
    Decidable (boundarySideCell rows columns right left up down ix iy) := by
  unfold boundarySideCell; infer_instance

/-- Every ring cell due an update is written by some strip sub-pass of
`updateExternal 1 rows columns`. -/
theorem extWritten_covers (rows columns : ℤ) (right left up down : Bool)
    (ix iy : ℤ) (h1 : 2 ≤ rows) (h2 : 2 ≤ columns)
    (hd : exteriorDue rows columns right left up down ix iy) :
    extWritten 1 rows columns right left up down ix iy := by
  unfold exteriorDue at hd
  unfold extWritten
  rcases right <;> rcases left <;> rcases up <;> rcases down <;>
    simp only [Bool.false_eq_true, Bool.true_eq_false, if_true, if_false,
      ite_true, ite_false, imp_false, IsEmpty.forall_iff, forall_true_left,
      false_implies, true_implies] at hd ⊢ <;> omega

/-- No strip sub-pass of `updateExternal 1 rows columns` writes a
boundary-side cell, provided a block spanning the whole height (width) of
the domain has at least 3 rows (columns). -/
theorem boundarySide_not_written (rows columns : ℤ)
    (right left up down : Bool) (ix iy : ℤ)
    (h1 : 2 ≤ rows) (h2 : 2 ≤ columns)
    (h3 : up = false → down = false → 3 ≤ rows)
    (h4 : left = false → right = false → 3 ≤ columns)
    (hb : boundarySideCell rows columns right left up down ix iy) :
    ¬ extWritten 1 rows columns right left up down ix iy := by
  unfold boundarySideCell at hb
  unfold extWritten
  rcases right <;> rcases left <;> rcases up <;> rcases down <;>
    simp only [Bool.false_eq_true, Bool.true_eq_false, if_true, if_false,
      ite_true, ite_false, imp_false, IsEmpty.forall_iff, forall_true_left,
      false_implies, true_implies, false_and, and_false, false_or, or_false,
      not_false_eq_true, forall_const] at hb h3 h4 ⊢ <;> omega

/-- Claim C1 (amended): for a block with `rows, columns ≥ 2` — at least 3
in a direction where both neighbors are absent — one call
`updateExternal(1, rows, columns, …)` writes the stencil value, computed
from the current buffer, to every exterior-ring cell due an update, and
leaves every boundary-side row/column cell unwritten. -/
theorem claim1_exterior_pass (rows columns : ℤ) (right left up down : Bool)
    (u1 u2 : Grid) (h1 : 2 ≤ rows) (h2 : 2 ≤ columns)
    (h3 : up = false → down = false → 3 ≤ rows)
    (h4 : left = false → right = false → 3 ≤ columns)
    (ix iy : ℤ) :
    (exteriorDue rows columns right left up down ix iy →
      updateExternal 1 rows columns right left up down u1 u2 ix iy =
        stencil u1 ix iy) ∧
    (boundarySideCell rows columns right left up down ix iy →
      updateExternal 1 rows columns right left up down u1 u2 ix iy =
        u2 ix iy) := by
  constructor
  · intro hd
    rw [updateExternal_apply,
      if_pos (extWritten_covers rows columns right left up down ix iy h1 h2 hd)]
  · intro hb
    rw [updateExternal_apply,
      if_neg (boundarySide_not_written rows columns right left up down ix iy
        h1 h2 h3 h4 hb)]

/-- A buffer holding 1 everywhere (used as a concrete current buffer). -/
def gOne : Grid := fun _ _ => 1

/-- A buffer holding 0 everywhere (used as a concrete next buffer). -/
def gZero : Grid := fun _ _ => 0

/-- Claim C1 fails as stated: for the 2 x 2 block with real left/right
neighbors and absent up/down neighbors, the first-row sub-pass writes the
boundary-side cell (2, 1) (row `rows = 2` is a domain-edge row), so the
boundary-side row is not left unwritten. -/
theorem claim1_counterexample :
    boundarySideCell 2 2 true true false false 2 1 ∧
    updateExternal 1 2 2 true true false false gOne gZero 2 1 ≠ gZero 2 1 := by
  refine ⟨by decide, ?_⟩
  rw [updateExternal_apply, if_pos (by decide)]
  unfold stencil parms gOne gZero
  norm_num

/-- Witness for claim C1 at a 3 x 3 block with a missing right neighbor:
the due ring cell (1,1) receives the stencil value and the boundary-side
cell (2,3) is left unchanged. -/
theorem claim1_witness :
    updateExternal 1 3 3 false true true true gOne gZero 1 1 =
      stencil gOne 1 1 ∧
    updateExternal 1 3 3 false true true true gOne gZero 2 3 = gZero 2 3 :=
  ⟨(claim1_exterior_pass 3 3 false true true true gOne gZero (by decide)
      (by decide) (by decide) (by decide) 1 1).1 (by decide),
   (claim1_exterior_pass 3 3 false true true true gOne gZero (by decide)
      (by decide) (by decide) (by decide) 2 3).2 (by decide)⟩

/-- If two current buffers agree on the block interior
`1..rows x 1..columns`, `updateInternal 2 (rows-1) columns` produces the
same output everywhere: each written cell's stencil reads only interior
cells, unwritten cells come from `u2`. -/
theorem updateInternal_read_local (rows columns : ℤ) (u1 u1' u2 : Grid)
    (h : ∀ a b, 1 ≤ a → a ≤ rows → 1 ≤ b → b ≤ columns → u1 a b = u1' a b)
    (ix iy : ℤ) :
    updateInternal 2 (rows - 1) columns u1 u2 ix iy =
      updateInternal 2 (rows - 1) columns u1' u2 ix iy := by
  unfold updateInternal
  split_ifs with hc
  · unfold stencil
    rw [h ix iy (by omega) (by omega) (by omega) (by omega),
      h (ix + 1) iy (by omega) (by omega) (by omega) (by omega),
      h (ix - 1) iy (by omega) (by omega) (by omega) (by omega),
      h ix (iy + 1) (by omega) (by omega) (by omega) (by omega),
      h ix (iy - 1) (by omega) (by omega) (by omega) (by omega)]
  · rfl

/-- Claim C3: `updateInternal(2, rows-1, columns, u1, u2)` updates exactly
the cells `2 ≤ ix ≤ rows-1`, `2 ≤ iy ≤ columns-1`, writing the discretized
update with `cx = cy = 0.1`, and reads only cells of `1..rows x
1..columns` of the current buffer. -/
theorem claim3_interior_pass (rows columns : ℤ) (u1 u2 : Grid) (ix iy : ℤ) :
    (2 ≤ ix ∧ ix ≤ rows - 1 ∧ 2 ≤ iy ∧ iy ≤ columns - 1 →
      updateInternal 2 (rows - 1) columns u1 u2 ix iy =
        u1 ix iy + (1/10) * (u1 (ix+1) iy + u1 (ix-1) iy - 2 * u1 ix iy)
          + (1/10) * (u1 ix (iy+1) + u1 ix (iy-1) - 2 * u1 ix iy)) ∧
    (¬(2 ≤ ix ∧ ix ≤ rows - 1 ∧ 2 ≤ iy ∧ iy ≤ columns - 1) →
      updateInternal 2 (rows - 1) columns u1 u2 ix iy = u2 ix iy) ∧
    (∀ u1' : Grid,
      (∀ a b, 1 ≤ a → a ≤ rows → 1 ≤ b → b ≤ columns → u1 a b = u1' a b) →
      updateInternal 2 (rows - 1) columns u1 u2 ix iy =
        updateInternal 2 (rows - 1) columns u1' u2 ix iy) := by
  refine ⟨?_, ?_, ?_⟩
  · intro hc
    unfold updateInternal
    rw [if_pos hc]
    simp [stencil, parms]
  · intro hc
    unfold updateInternal
    rw [if_neg hc]
  · intro u1' hagree
    exact updateInternal_read_local rows columns u1 u1' u2 hagree ix iy

/-- Witness for claim C3 on a concrete buffer and cell. -/
theorem claim3_witness :
    updateInternal 2 (4 - 1) 4 gOne gZero 2 2 =
      gOne 2 2 + (1/10) * (gOne (2+1) 2 + gOne (2-1) 2 - 2 * gOne 2 2)
        + (1/10) * (gOne 2 (2+1) + gOne 2 (2-1) - 2 * gOne 2 2) :=
  (claim3_interior_pass 4 4 gOne gZero 2 2).1 (by decide)

/-- Claim C5: the interior pass is independent of halo state — two current
buffers agreeing on the interior `1..rows x 1..columns` but arbitrary on
the outer ring produce identical results. -/
theorem claim5_interior_halo_independent (rows columns : ℤ)
    (u1 u1' u2 : Grid)
    (h : ∀ a b, 1 ≤ a → a ≤ rows → 1 ≤ b → b ≤ columns → u1 a b = u1' a b)
    (ix iy : ℤ) :
    updateInternal 2 (rows - 1) columns u1 u2 ix iy =
      updateInternal 2 (rows - 1) columns u1' u2 ix iy :=
  updateInternal_read_local rows columns u1 u1' u2 h ix iy

/-- A buffer that agrees with `gOne` on every cell with `a ≥ 1` but
differs on the halo row `a = 0`. -/
def gHalo : Grid := fun a _ => if a = 0 then 7 else 1

/-- Witness for claim C5: `gOne` and `gHalo` differ on the halo ring yet
give the same interior-pass output. -/
theorem claim5_witness :
    updateInternal 2 (3 - 1) 3 gOne gZero 2 2 =
      updateInternal 2 (3 - 1) 3 gHalo gZero 2 2 :=
  claim5_interior_halo_independent 3 3 gOne gHalo gZero
    (fun a b ha _ _ _ => by
      simp only [gOne, gHalo]
      rw [if_neg (by omega)]) 2 2

/-- Claim C9 (amended, for block shapes `rows, columns ≥ 2`): neither
pass writes outside `1..rows x 1..columns`; in particular every outer-ring
cell of the next buffer is left unchanged. -/
theorem claim9_no_halo_writes (rows columns : ℤ) (right left up down : Bool)
    (u1 u2 : Grid) (ix iy : ℤ) (h1 : 2 ≤ rows) (h2 : 2 ≤ columns)
    (hout : ¬(1 ≤ ix ∧ ix ≤ rows ∧ 1 ≤ iy ∧ iy ≤ columns)) :
    updateInternal 2 (rows - 1) columns u1 u2 ix iy = u2 ix iy ∧
    updateExternal 1 rows columns right left up down u1 u2 ix iy =
      u2 ix iy := by
  constructor
  · unfold updateInternal
    rw [if_neg (by omega)]
  · rw [updateExternal_apply, if_neg ?_]
    unfold extWritten
    rcases right <;> rcases left <;> rcases up <;> rcases down <;>
      simp only [Bool.false_eq_true, Bool.true_eq_false, if_true, if_false,
        ite_true, ite_false] <;> omega

/-- Claim C9 fails as stated (for arbitrary block shapes): with a
single-row block (`rows = 1`, `columns = 3`) and no neighbors, the
first-row sub-pass writes the halo cell `(2, 2) = (rows+1, 2)`. -/
theorem claim9_counterexample :
    updateExternal 1 1 3 false false false false gOne gZero 2 2 ≠
      gZero 2 2 := by
  rw [updateExternal_apply, if_pos (by decide)]
  unfold stencil parms gOne gZero
  norm_num

/-- Witness for claim C9 at a 3 x 3 block: the halo cells (0,2) and (2,4)
are untouched by both passes. -/
theorem claim9_witness :
    updateInternal 2 (3 - 1) 3 gOne gZero 0 2 = gZero 0 2 ∧
    updateExternal 1 3 3 true true true true gOne gZero 0 2 = gZero 0 2 :=
  claim9_no_halo_writes 3 3 true true true true gOne gZero 0 2
    (by decide) (by decide) (by decide)

/-! ## The distributed pipeline

`main`'s data movement and lock-step simulation loop, embedded as their
deterministic equivalent: a family of per-worker haloed buffers indexed
by block coordinates `(r, c)` of the `xdim x ydim` worker grid. -/

/-- One haloed block per worker `(blockRow, blockCol)`. -/
def WorkerFam : Type := ℤ → ℤ → Grid

/-- The Scatterv/Gatherv displacement of block `(r, c)`, in floats:
the source computes `displs[r*ydim+c] = r*rows*ydim + c` counted in units
of the resized extent `columns*sizeof(float)`. -/
def displ (ydim rows columns r c : ℤ) : ℤ := (r * rows * ydim + c) * columns

/-- `MPI_Scatterv` with the source's subarray type and displacements:
worker `(r, c)`'s interior cell `(ix, iy)` receives the float at flat
offset `displ + (ix-1)*NY + (iy-1)` of the global array `u` (the send
subarray has row stride `NY`), and flat offset `o` of the row-major
global array addresses cell `(o / NY, o % NY)`.  `NY` is the global row
length — `NYPROB` at the program's call site, 4 in the spec's 4x4
scenario.  The halo ring stays at its zero initialization.  Note the
offset is the claimed row-major position `(r*rows, c*columns)` only when
`ydim * columns = NY`; otherwise blocks land scrambled. -/
def scatterBlock (G : Grid) (NY ydim rows columns r c : ℤ) : Grid :=
  fun ix iy =>
    if 1 ≤ ix ∧ ix ≤ rows ∧ 1 ≤ iy ∧ iy ≤ columns then
      G ((displ ydim rows columns r c + (ix - 1) * NY + (iy - 1)) / NY)
        ((displ ydim rows columns r c + (ix - 1) * NY + (iy - 1)) % NY)
    else 0

/-- The family of all scattered blocks. -/
def scatterFam (G : Grid) (NY ydim rows columns : ℤ) : WorkerFam :=
  fun r c => scatterBlock G NY ydim rows columns r c

/-- The zero-initialized second buffer (`local[1]`). -/
def zeroFam : WorkerFam := fun _ _ _ _ => 0

/-- One round of the halo exchange (the 8 persistent/immediate transfers):
each worker's halo row 0 receives the up neighbor's interior row `rows`,
halo row `rows+1` the down neighbor's row 1, halo column 0 the left
neighbor's column `columns`, halo column `columns+1` the right neighbor's
column 1; edges with no neighbor are untouched. -/
def exchangeHalos (xdim ydim rows columns : ℤ) (w : WorkerFam) : WorkerFam :=
  fun r c ix iy =>
    if ix = 0 ∧ 1 ≤ iy ∧ iy ≤ columns ∧ 0 < r then w (r - 1) c rows iy
    else if ix = rows + 1 ∧ 1 ≤ iy ∧ iy ≤ columns ∧ r < xdim - 1 then
      w (r + 1) c 1 iy
    else if iy = 0 ∧ 1 ≤ ix ∧ ix ≤ rows ∧ 0 < c then w r (c - 1) ix columns
    else if iy = columns + 1 ∧ 1 ≤ ix ∧ ix ≤ rows ∧ c < ydim - 1 then
      w r (c + 1) ix 1
    else w r c ix iy

/-- One step's stencil computation on every worker: `updateInternal(2,
rows-1, columns)` then `updateExternal(1, rows, columns)` from the current
buffer into the (stale) next buffer, with each worker's neighbor flags as
assigned over the block grid. -/
def computeFam (xdim ydim rows columns : ℤ) (cur old : WorkerFam) :
    WorkerFam :=
  fun r c =>
    updateExternal 1 rows columns (decide (c < ydim - 1)) (decide (0 < c))
      (decide (0 < r)) (decide (r < xdim - 1)) (cur r c)
      (updateInternal 2 (rows - 1) columns (cur r c) (old r c))

/-- One simulation step: exchange the current buffer's halos, compute into
the other buffer, and flip the binding (the freshly computed family is the
next step's current buffer, the exchanged one becomes its stale target). -/
def simStep (xdim ydim rows columns : ℤ) (p : WorkerFam × WorkerFam) :
    WorkerFam × WorkerFam :=
  (computeFam xdim ydim rows columns
      (exchangeHalos xdim ydim rows columns p.1) p.2,
    exchangeHalos xdim ydim rows columns p.1)

/-- `steps` simulation steps from the scattered field; the first component
is the buffer `local[steps % 2]` the program gathers from. -/
def simulate (NY xdim ydim rows columns : ℤ) (G : Grid) (steps : ℕ) :
    WorkerFam × WorkerFam :=
  (simStep xdim ydim rows columns)^[steps]
    (scatterFam G NY ydim rows columns, zeroFam)

/-- `MPI_Gatherv` uses the same displacements as the scatter, so each
worker's interior returns to the flat region it was read from.  When the
column decomposition spans the full row (`ydim * columns = NY`) those
regions are the disjoint rectangles at row-major offsets `(r*rows,
c*columns)` and the gathered field is this inverse mapping (the flat
target offsets are identified with these positions in the gather-offset
part of the scatter/gather theorem); cells outside the coverage keep
their previous value.  When `ydim * columns ≠ NY` the receive regions of
different workers overlap, which MPI leaves undefined, so the gathered
field is modelled only under that hypothesis. -/
def gatherField (xdim ydim rows columns : ℤ) (w : WorkerFam) (G : Grid) :
    Grid :=
  fun i j =>
    if 0 ≤ i ∧ i < xdim * rows ∧ 0 ≤ j ∧ j < ydim * columns then
      w (i / rows) (j / columns) (i % rows + 1) (j % columns + 1)
    else G i j

/-- The gathered global field after `steps` simulation steps. -/
def finalField (NY xdim ydim rows columns : ℤ) (G : Grid) (steps : ℕ) :
    Grid :=
  gatherField xdim ydim rows columns
    (simulate NY xdim ydim rows columns G steps).1 G

/-- `inidat(nx, ny, u)`: `u[ix][iy] = ix * (nx-ix-1) * iy * (ny-iy-1)`. -/
def inidat (nx ny : ℤ) : Grid :=
  fun ix iy => ((ix * (nx - ix - 1) * iy * (ny - iy - 1) : ℤ) : ℚ)

/-- Under full-width column coverage (`ydim * columns = NY`) the flat
Scatterv displacement map is the clean block map: worker `(r, c)`'s
interior cell `(ix, iy)` receives global cell
`(r*rows + ix - 1, c*columns + iy - 1)`. -/
theorem scatterBlock_clean (G : Grid) (NY ydim rows columns r c ix iy : ℤ)
    (hNY : ydim * columns = NY) (hcols : 0 < columns)
    (hr : 0 ≤ r) (hc : 0 ≤ c) (hcy : c < ydim)
    (hix1 : 1 ≤ ix) (hix2 : ix ≤ rows) (hiy1 : 1 ≤ iy) (hiy2 : iy ≤ columns) :
    scatterBlock G NY ydim rows columns r c ix iy =
      G (r * rows + ix - 1) (c * columns + iy - 1) := by
  have hNY0 : 0 < NY := by
    rw [← hNY]; exact mul_pos (by omega) hcols
  have hm0 : 0 ≤ c * columns + iy - 1 := by
    have := mul_nonneg hc (le_of_lt hcols)
    omega
  have hmNY : c * columns + iy - 1 < NY := by
    have hb1 : c * columns ≤ (ydim - 1) * columns :=
      mul_le_mul_of_nonneg_right (by omega) (by omega)
    have hb2 : (ydim - 1) * columns = NY - columns := by linear_combination hNY
    omega
  have ho : displ ydim rows columns r c + (ix - 1) * NY + (iy - 1) =
      (c * columns + iy - 1) + (r * rows + ix - 1) * NY := by
    unfold displ
    linear_combination (r * rows) * hNY
  unfold scatterBlock
  rw [if_pos (by omega), ho,
    Int.add_mul_ediv_right _ _ (by omega : NY ≠ 0),
    Int.ediv_eq_zero_of_lt hm0 hmNY, zero_add, Int.add_mul_emod_self,
    Int.emod_eq_of_lt hm0 hmNY]

/-- A field whose value encodes its cell coordinates, to distinguish
placements. -/
def gCoord : Grid := fun i j => ((1000 * i + j : ℤ) : ℚ)


/-- Claim C6 (amended): provided the column decomposition spans the full
grid width (`ydim * columns = NYPROB`, the only case in which Gatherv's
receive regions are disjoint), scatter places each worker's
`rows x columns` sub-rectangle at row-major offset `(blockRow*rows,
blockCol*columns)` into its interior with a zero halo ring; gather writes
each interior back to the same offset (the flat Gatherv target offset
equals that row-major position) leaving uncovered cells untouched; and
scatter followed immediately by gather with zero steps reproduces the
global field on every cell. -/
theorem claim6_scatter_gather_roundtrip (G : Grid) (w : WorkerFam)
    (xdim ydim rows columns : ℤ)
    (hrows : 0 < rows) (hcols : 0 < columns) (hyd : 0 < ydim)
    (hNY : ydim * columns = (NYPROB : ℤ)) :
    (∀ i j, finalField (NYPROB : ℤ) xdim ydim rows columns G 0 i j = G i j) ∧
    (∀ r c ix iy, ¬(1 ≤ ix ∧ ix ≤ rows ∧ 1 ≤ iy ∧ iy ≤ columns) →
      scatterBlock G (NYPROB : ℤ) ydim rows columns r c ix iy = 0) ∧
    (∀ r c ix iy, 0 ≤ r → 0 ≤ c → c < ydim →
      1 ≤ ix → ix ≤ rows → 1 ≤ iy → iy ≤ columns →
      scatterBlock G (NYPROB : ℤ) ydim rows columns r c ix iy =
        G (r * rows + ix - 1) (c * columns + iy - 1)) ∧
    (∀ r c ix iy, 0 ≤ r → r < xdim → 0 ≤ c → c < ydim →
      1 ≤ ix → ix ≤ rows → 1 ≤ iy → iy ≤ columns →
      displ ydim rows columns r c + (ix - 1) * (NYPROB : ℤ) + (iy - 1) =
        (r * rows + ix - 1) * (NYPROB : ℤ) + (c * columns + iy - 1) ∧
      gatherField xdim ydim rows columns w G (r * rows + ix - 1)
        (c * columns + iy - 1) = w r c ix iy) := by
  refine ⟨?_, ?_, ?_, ?_⟩
  · intro i j
    unfold finalField simulate
    rw [Function.iterate_zero_apply]
    unfold gatherField
    split_ifs with h
    · have hm1 : 0 ≤ i % rows := Int.emod_nonneg i (by omega)
      have hm2 : i % rows < rows := Int.emod_lt_of_pos i hrows
      have hm3 : 0 ≤ j % columns := Int.emod_nonneg j (by omega)
      have hm4 : j % columns < columns := Int.emod_lt_of_pos j hcols
      have hdi : rows * (i / rows) + i % rows = i := Int.ediv_add_emod i rows
      have hdj : columns * (j / columns) + j % columns = j :=
        Int.ediv_add_emod j columns
      have hq1 : 0 ≤ i / rows := Int.ediv_nonneg (by omega) (by omega)
      have hq2 : 0 ≤ j / columns := Int.ediv_nonneg (by omega) (by omega)
      have hcY : j / columns < ydim := by
        by_contra hcon
        push_neg at hcon
        have hmm : columns * ydim ≤ columns * (j / columns) :=
          mul_le_mul_of_nonneg_left hcon (by omega)
        have hco : columns * ydim = ydim * columns := mul_comm columns ydim
        omega
      show scatterBlock G (NYPROB : ℤ) ydim rows columns (i / rows)
        (j / columns) (i % rows + 1) (j % columns + 1) = G i j
      rw [scatterBlock_clean G (NYPROB : ℤ) ydim rows columns _ _ _ _ hNY
        hcols hq1 hq2 hcY (by omega) (by omega) (by omega) (by omega)]
      have ei : i / rows * rows + (i % rows + 1) - 1 = i := by
        linear_combination hdi
      have ej : j / columns * columns + (j % columns + 1) - 1 = j := by
        linear_combination hdj
      rw [ei, ej]
    · rfl
  · intro r c ix iy h
    unfold scatterBlock
    rw [if_neg h]
  · intro r c ix iy h1 h2 h3 h4 h5 h6 h7
    exact scatterBlock_clean G (NYPROB : ℤ) ydim rows columns r c ix iy hNY
      hcols h1 h2 h3 h4 h5 h6 h7
  · intro r c ix iy hr0 hrx hc0 hcyd hx1 hx2 hy1 hy2
    constructor
    · unfold displ
      linear_combination (r * rows) * hNY
    · have hq0 : 0 ≤ r * rows := mul_nonneg hr0 (by omega)
      have hc0m : 0 ≤ c * columns := mul_nonneg hc0 (by omega)
      have hiub : r * rows + ix - 1 < xdim * rows := by
        have hb1 : r * rows ≤ (xdim - 1) * rows :=
          mul_le_mul_of_nonneg_right (by omega) (by omega)
        have hb2 : (xdim - 1) * rows = xdim * rows - rows := by ring
        omega
      have hjub : c * columns + iy - 1 < ydim * columns := by
        have hb1 : c * columns ≤ (ydim - 1) * columns :=
          mul_le_mul_of_nonneg_right (by omega) (by omega)
        have hb2 : (ydim - 1) * columns = ydim * columns - columns := by ring
        omega
      have e1 : (r * rows + ix - 1) / rows = r := by
        rw [show r * rows + ix - 1 = (ix - 1) + r * rows by ring,
          Int.add_mul_ediv_right _ _ (by omega : rows ≠ 0),
          Int.ediv_eq_zero_of_lt (by omega) (by omega), zero_add]
      have e2 : (r * rows + ix - 1) % rows = ix - 1 := by
        rw [show r * rows + ix - 1 = (ix - 1) + r * rows by ring,
          Int.add_mul_emod_self, Int.emod_eq_of_lt (by omega) (by omega)]
      have e3 : (c * columns + iy - 1) / columns = c := by
        rw [show c * columns + iy - 1 = (iy - 1) + c * columns by ring,
          Int.add_mul_ediv_right _ _ (by omega : columns ≠ 0),
          Int.ediv_eq_zero_of_lt (by omega) (by omega), zero_add]
      have e4 : (c * columns + iy - 1) % columns = iy - 1 := by
        rw [show c * columns + iy - 1 = (iy - 1) + c * columns by ring,
          Int.add_mul_emod_self, Int.emod_eq_of_lt (by omega) (by omega)]
      unfold gatherField
      rw [if_pos ⟨by omega, hiub, by omega, hjub⟩, e1, e2, e3, e4]
      simp only [sub_add_cancel]

/-- Witness for claim C6 on a concrete field, a `2 x 2` decomposition of
`3 x 160` blocks (`2 * 160 = NYPROB`), and concrete cells. -/
theorem claim6_witness :
    finalField (NYPROB : ℤ) 2 2 3 160 (inidat 6 8) 0 4 5 = inidat 6 8 4 5 :=
  (claim6_scatter_gather_roundtrip (inidat 6 8) zeroFam 2 2 3 160
    (by norm_num) (by norm_num) (by norm_num) (by norm_num [NYPROB])).1 4 5

/-- A local interior cell of worker `(r, c)` that corresponds to a domain
boundary cell of the global grid when the decomposition covers the whole
grid: the first/last interior row/column of an edge block. -/
def boundaryLocalCell (xdim ydim rows columns r c ix iy : ℤ) : Prop :=
  (1 ≤ ix ∧ ix ≤ rows ∧ 1 ≤ iy ∧ iy ≤ columns) ∧
  ((r = 0 ∧ ix = 1) ∨ (r = xdim - 1 ∧ ix = rows) ∨
   (c = 0 ∧ iy = 1) ∨ (c = ydim - 1 ∧ iy = columns))

/-- The halo exchange writes only halo-ring cells: interior cells are
untouched. -/
theorem exchangeHalos_interior (xdim ydim rows columns : ℤ) (w : WorkerFam)
    (r c ix iy : ℤ) (h : 1 ≤ ix ∧ ix ≤ rows ∧ 1 ≤ iy ∧ iy ≤ columns) :
    exchangeHalos xdim ydim rows columns w r c ix iy = w r c ix iy := by
  unfold exchangeHalos
  rw [if_neg (by omega), if_neg (by omega), if_neg (by omega),
    if_neg (by omega)]

/-- Neither stencil pass writes a boundary-corresponding local cell, so
the per-worker compute step leaves such cells at their stale-buffer
value. -/
theorem computeFam_boundary_frame (xdim ydim rows columns : ℤ)
    (cur old : WorkerFam) (r c ix iy : ℤ)
    (h1 : 2 ≤ rows) (h2 : 2 ≤ columns) (hx : 1 ≤ xdim) (hy : 1 ≤ ydim)
    (h3 : xdim = 1 → 3 ≤ rows) (h4 : ydim = 1 → 3 ≤ columns)
    (hb : boundaryLocalCell xdim ydim rows columns r c ix iy) :
    computeFam xdim ydim rows columns cur old r c ix iy = old r c ix iy := by
  unfold boundaryLocalCell at hb
  unfold computeFam
  rw [updateExternal_apply, if_neg ?hext]
  · unfold updateInternal
    rw [if_neg (by omega)]
  case hext =>
    unfold extWritten
    by_cases hu : 0 < r <;> by_cases hd : r < xdim - 1 <;>
      by_cases hl : 0 < c <;> by_cases hr : c < ydim - 1 <;>
        simp only [hu, hd, hl, hr, decide_True, decide_False,
          Bool.false_eq_true, Bool.true_eq_false, if_true, if_false,
          ite_true, ite_false, eq_self_iff_true] <;> omega

/-- Both buffers of every worker stay zero, across all steps, at every
boundary-corresponding local cell whose scattered initial value is
zero. -/
theorem simulate_boundary_zero (G : Grid) (NY xdim ydim rows columns : ℤ)
    (steps : ℕ) (r c ix iy : ℤ)
    (h1 : 2 ≤ rows) (h2 : 2 ≤ columns) (hx : 1 ≤ xdim) (hy : 1 ≤ ydim)
    (h3 : xdim = 1 → 3 ≤ rows) (h4 : ydim = 1 → 3 ≤ columns)
    (hb : boundaryLocalCell xdim ydim rows columns r c ix iy)
    (hscat : scatterBlock G NY ydim rows columns r c ix iy = 0) :
    (simulate NY xdim ydim rows columns G steps).1 r c ix iy = 0 ∧
    (simulate NY xdim ydim rows columns G steps).2 r c ix iy = 0 := by
  induction steps with
  | zero =>
    unfold simulate
    rw [Function.iterate_zero_apply]
    exact ⟨hscat, rfl⟩
  | succ n ih =>
    unfold simulate at ih ⊢
    rw [Function.iterate_succ_apply']
    simp only [simStep]
    constructor
    · rw [computeFam_boundary_frame xdim ydim rows columns _ _ r c ix iy
        h1 h2 hx hy h3 h4 hb]
      exact ih.2
    · rw [exchangeHalos_interior xdim ydim rows columns _ r c ix iy hb.1]
      exact ih.1

/-- Claim C2 (amended): for initial fields whose domain boundary cells
are all zero (as the program's initializer produces), block shapes of at
least 2 rows and columns (3 when a single block spans the whole
height/width), and a column decomposition spanning the full grid width
(`ydim * columns = NYPROB`, without which Gatherv's receive regions
overlap and scramble), every domain boundary cell of the gathered final
field equals its initial value after any number of steps. -/
theorem claim2_boundary_invariant (G : Grid) (xdim ydim rows columns : ℤ)
    (steps : ℕ) (i j : ℤ)
    (h1 : 2 ≤ rows) (h2 : 2 ≤ columns) (hx : 1 ≤ xdim) (hy : 1 ≤ ydim)
    (h3 : xdim = 1 → 3 ≤ rows) (h4 : ydim = 1 → 3 ≤ columns)
    (hcx : xdim * rows ≤ (NXPROB : ℤ))
    (hNY : ydim * columns = (NYPROB : ℤ))
    (hzero : ∀ a b : ℤ,
      a = 0 ∨ a = (NXPROB : ℤ) - 1 ∨ b = 0 ∨ b = (NYPROB : ℤ) - 1 →
      G a b = 0)
    (hi : 0 ≤ i ∧ i < (NXPROB : ℤ)) (hj : 0 ≤ j ∧ j < (NYPROB : ℤ))
    (hbound : i = 0 ∨ i = (NXPROB : ℤ) - 1 ∨ j = 0 ∨ j = (NYPROB : ℤ) - 1) :
    finalField (NYPROB : ℤ) xdim ydim rows columns G steps i j = G i j := by
  have hNXc : (NXPROB : ℤ) = 256 := by norm_num [NXPROB]
  have hNYc : (NYPROB : ℤ) = 320 := by norm_num [NYPROB]
  have h320 : ydim * columns = 320 := hNY.trans hNYc
  simp only [hNXc, hNYc] at hcx hzero hi hj hbound
  unfold finalField gatherField
  by_cases hcov : 0 ≤ i ∧ i < xdim * rows ∧ 0 ≤ j ∧ j < ydim * columns
  · rw [if_pos hcov]
    have hrne : rows ≠ 0 := by omega
    have hcne : columns ≠ 0 := by omega
    have hmi1 : 0 ≤ i % rows := Int.emod_nonneg i hrne
    have hmi2 : i % rows < rows := Int.emod_lt_of_pos i (by omega)
    have hmj1 : 0 ≤ j % columns := Int.emod_nonneg j hcne
    have hmj2 : j % columns < columns := Int.emod_lt_of_pos j (by omega)
    have hdi : rows * (i / rows) + i % rows = i := Int.ediv_add_emod i rows
    have hdj : columns * (j / columns) + j % columns = j :=
      Int.ediv_add_emod j columns
    have hri : i / rows * rows + (i % rows + 1) - 1 = i := by
      linear_combination hdi
    have hrj : j / columns * columns + (j % columns + 1) - 1 = j := by
      linear_combination hdj
    have hq1 : 0 ≤ i / rows := Int.ediv_nonneg (by omega) (by omega)
    have hq2 : 0 ≤ j / columns := Int.ediv_nonneg (by omega) (by omega)
    have hcY : j / columns < ydim := by
      by_contra hcon
      push_neg at hcon
      have hmm : columns * ydim ≤ columns * (j / columns) :=
        mul_le_mul_of_nonneg_left hcon (by omega)
      have hco : columns * ydim = ydim * columns := mul_comm columns ydim
      omega
    have hscat : scatterBlock G (NYPROB : ℤ) ydim rows columns (i / rows)
        (j / columns) (i % rows + 1) (j % columns + 1) = G i j := by
      rw [scatterBlock_clean G (NYPROB : ℤ) ydim rows columns _ _ _ _ hNY
        (by omega) hq1 hq2 hcY (by omega) (by omega) (by omega) (by omega),
        hri, hrj]
    have hbl : boundaryLocalCell xdim ydim rows columns (i / rows)
        (j / columns) (i % rows + 1) (j % columns + 1) := by
      unfold boundaryLocalCell
      refine ⟨by omega, ?_⟩
      rcases hbound with h | h | h | h
      · subst h
        left
        rw [Int.zero_ediv, Int.zero_emod]
        exact ⟨rfl, rfl⟩
      · have h256 : xdim * rows = 256 := by omega
        have hw : i = (rows - 1) + (xdim - 1) * rows := by
          rw [h]; linear_combination -h256
        right; left
        constructor
        · rw [hw, Int.add_mul_ediv_right _ _ hrne,
            Int.ediv_eq_zero_of_lt (by omega) (by omega), zero_add]
        · rw [hw, Int.add_mul_emod_self,
            Int.emod_eq_of_lt (by omega) (by omega)]
          ring
      · subst h
        right; right; left
        rw [Int.zero_ediv, Int.zero_emod]
        exact ⟨rfl, rfl⟩
      · have hw : j = (columns - 1) + (ydim - 1) * columns := by
          rw [h]; linear_combination -h320
        right; right; right
        constructor
        · rw [hw, Int.add_mul_ediv_right _ _ hcne,
            Int.ediv_eq_zero_of_lt (by omega) (by omega), zero_add]
        · rw [hw, Int.add_mul_emod_self,
            Int.emod_eq_of_lt (by omega) (by omega)]
          ring
    have hz := (simulate_boundary_zero G (NYPROB : ℤ) xdim ydim rows columns
      steps (i / rows) (j / columns) (i % rows + 1) (j % columns + 1)
      h1 h2 hx hy h3 h4 hbl
      (by rw [hscat]; exact hzero i j (by omega))).1
    rw [hz, hzero i j (by omega)]
  · rw [if_neg hcov]

/-- Claim C2 fails as stated (for arbitrary initial fields): with the
uniform field 5 on one worker, after one step the gathered corner cell
(0,0) is 0 (the boundary cells come from the zero-initialized second
buffer), not its initial value 5. -/
theorem claim2_counterexample :
    finalField (NYPROB : ℤ) 1 1 256 320 (fun _ _ => 5) 1 0 0 ≠
      (fun _ _ => (5:ℚ)) 0 0 := by
  have h0 : finalField (NYPROB : ℤ) 1 1 256 320 (fun _ _ => (5:ℚ)) 1 0 0
      = 0 := by
    unfold finalField gatherField
    dsimp only
    rw [if_pos (by norm_num)]
    rw [show (0:ℤ) / 256 = 0 from rfl, show (0:ℤ) / 320 = 0 from rfl,
      show (0:ℤ) % 256 + 1 = 1 by rfl, show (0:ℤ) % 320 + 1 = 1 by rfl]
    unfold simulate
    rw [Function.iterate_one]
    simp only [simStep]
    unfold computeFam
    rw [updateExternal_apply, if_neg (by decide)]
    unfold updateInternal
    rw [if_neg (by decide)]
    rfl
  rw [h0]
  norm_num

/-- Witness for claim C2 with the all-zero field on one worker. -/
theorem claim2_witness :
    finalField (NYPROB : ℤ) 1 1 256 320 gZero 1 0 0 = gZero 0 0 :=
  claim2_boundary_invariant gZero 1 1 256 320 1 0 0 (by norm_num)
    (by norm_num) (by norm_num) (by norm_num) (fun _ => by norm_num)
    (fun _ => by norm_num) (by norm_num [NXPROB]) (by norm_num [NYPROB])
    (fun a b _ => rfl) (by norm_num [NXPROB]) (by norm_num [NYPROB])
    (Or.inl rfl)

set_option maxHeartbeats 1000000 in
/-- Claim C4: the concrete scenario `NX=NY=4`, one worker, one step,
initial field `inidat 4 4` (`u(i,j) = i*(3-i)*j*(3-j)`): after the step
every boundary cell equals its initial value 0 and every interior cell
equals the direct stencil evaluation on the initial field. -/
theorem claim4_concrete_scenario (i j : ℤ) (hi0 : 0 ≤ i) (hi4 : i < 4)
    (hj0 : 0 ≤ j) (hj4 : j < 4) :
    finalField 4 1 1 4 4 (inidat 4 4) 1 i j =
      (if i = 0 ∨ i = 3 ∨ j = 0 ∨ j = 3 then 0
        else stencil (inidat 4 4) i j) ∧
    (i = 0 ∨ i = 3 ∨ j = 0 ∨ j = 3 → inidat 4 4 i j = 0) := by
  interval_cases i <;> interval_cases j <;>
    exact ⟨by norm_num [finalField, gatherField, simulate,
        Function.iterate_one, simStep, computeFam, updateExternal_apply,
        updateInternal, exchangeHalos, scatterFam, scatterBlock, displ,
        zeroFam, extWritten, stencil, parms, inidat],
      by norm_num [inidat]⟩

/-- Witness for claim C4 at the interior cell (1,1) and the boundary cell
(0,2). -/
theorem claim4_witness :
    finalField 4 1 1 4 4 (inidat 4 4) 1 1 1 = stencil (inidat 4 4) 1 1 ∧
    finalField 4 1 1 4 4 (inidat 4 4) 1 0 2 = 0 :=
  ⟨by simpa using (claim4_concrete_scenario 1 1 (by norm_num) (by norm_num)
      (by norm_num) (by norm_num)).1,
   by simpa using (claim4_concrete_scenario 0 2 (by norm_num) (by norm_num)
      (by norm_num) (by norm_num)).1⟩

/-! ## Partitioner, primality check and neighbor assignment -/

/-- The factor scan of `main`: `for (x = sqrt(numworkers)+1; x >= 1; x--)
if (numworkers % x == 0) break` — the first (largest) divisor of `W`
from `x` downward. -/
def scanDiv (W : ℕ) : ℕ → ℕ
  | 0 => 0
  | x + 1 => if W % (x + 1) = 0 then x + 1 else scanDiv W x

/-- The partition `(xdim, ydim)`: `xdim = x`, `ydim = W/x` for the scan's
divisor `x`, swapped when `NYPROB > NXPROB` and `ydim < xdim`. -/
def partitionDims (W : ℕ) : ℕ × ℕ :=
  if NYPROB > NXPROB ∧ W / scanDiv W (Nat.sqrt W + 1) < scanDiv W (Nat.sqrt W + 1) then
    (W / scanDiv W (Nat.sqrt W + 1), scanDiv W (Nat.sqrt W + 1))
  else (scanDiv W (Nat.sqrt W + 1), W / scanDiv W (Nat.sqrt W + 1))

/-- The trial-division loop of `isPrime`: `for (i=3; i*i<=n; i+=2) if
(n%i==0) return 0; return 1`, with enough fuel (the loop runs at most
`⌈√n/2⌉` iterations, and every use passes fuel `n ≥ √n`). -/
def trialDiv (fuel n i : ℕ) : Bool :=
  match fuel with
  | 0 => true
  | fuel + 1 =>
    if i * i ≤ n then
      (if n % i = 0 then false else trialDiv fuel n (i + 2))
    else true

/-- `isPrime` from the source: 1 is not prime, 2 is prime, even numbers
are not, otherwise trial division by odd numbers from 3. -/
def codeIsPrime (n : ℕ) : Bool :=
  if n = 1 then false
  else if n = 2 then true
  else if n % 2 = 0 then false
  else trialDiv n n 3

/-- Claim C6 fails as stated: at the reachable worker count `W = 16384`
the partitioner yields a `128 x 128` grid of `2 x 2` blocks with
`ydim * columns = 256 ≠ NYPROB`, and the Scatterv displacement then places
worker (1,0)'s first interior cell at global (1, 192), not at the claimed
row-major offset `(blockRow*rows, blockCol*columns) = (2, 0)`. -/
theorem claim6_counterexample :
    partitionDims 16384 = (128, 128) ∧
    scatterBlock gCoord (NYPROB : ℤ) 128 2 2 1 0 1 1 = gCoord 1 192 ∧
    gCoord 1 192 ≠ gCoord (1 * 2 + 1 - 1) (0 * 2 + 1 - 1) := by
  refine ⟨?_, ?_, ?_⟩
  · have hs : Nat.sqrt 16384 = 128 := by norm_num
    have hsd : scanDiv 16384 (Nat.sqrt 16384 + 1) = 128 := by
      rw [hs]; decide
    unfold partitionDims
    rw [hsd]
    norm_num [NXPROB, NYPROB]
  · unfold scatterBlock displ gCoord
    rw [if_pos (by norm_num)]
    norm_num [NYPROB]
  · unfold gCoord
    norm_num

/-- The scan's result for a positive bound: a divisor of `W`, positive,
and at most the bound. -/
theorem scanDiv_dvd (W : ℕ) (hW : 1 ≤ W) :
    ∀ x, 1 ≤ x → scanDiv W x ∣ W ∧ 1 ≤ scanDiv W x ∧ scanDiv W x ≤ x := by
  intro x
  induction x with
  | zero => intro h; exact absurd h (by norm_num)
  | succ n ih =>
    intro _
    simp only [scanDiv]
    split_ifs with h
    · exact ⟨Nat.dvd_of_mod_eq_zero h, by omega, le_refl _⟩
    · rcases n with _ | m
      · exact absurd (Nat.mod_one W) h
      · obtain ⟨d1, d2, d3⟩ := ih (by omega)
        exact ⟨d1, d2, by omega⟩

/-- The scan finds the largest divisor below its bound. -/
theorem scanDiv_max (W : ℕ) :
    ∀ x e, e ∣ W → e ≤ x → e ≤ scanDiv W x := by
  intro x
  induction x with
  | zero =>
    intro e _ hle
    simpa [scanDiv] using hle
  | succ n ih =>
    intro e he hle
    simp only [scanDiv]
    split_ifs with h
    · exact hle
    · have hne : e ≠ n + 1 := by
        rintro rfl
        exact h (Nat.mod_eq_zero_of_dvd he)
      exact ih e he (by omega)

/-- The product of the partition always recovers `W`. -/
theorem partitionDims_mul (W : ℕ) (hW : 1 ≤ W) :
    (partitionDims W).1 * (partitionDims W).2 = W := by
  obtain ⟨hdvd, hd1, _⟩ := scanDiv_dvd W hW (Nat.sqrt W + 1) (by omega)
  unfold partitionDims
  split_ifs with h
  · exact Nat.div_mul_cancel hdvd
  · exact Nat.mul_div_cancel' hdvd

/-- For `W ≥ 3`, `√W + 2 ≤ W`. -/
theorem sqrt_add_two_le (W : ℕ) (h : 3 ≤ W) : Nat.sqrt W + 2 ≤ W := by
  have h1 : 2 * (W - 1) ≤ (W - 1) * (W - 1) :=
    Nat.mul_le_mul_right (W - 1) (by omega)
  have h2 : W < (W - 1) * (W - 1) := by omega
  have h3 : Nat.sqrt W < W - 1 := by
    by_contra hc
    have : (W - 1) * (W - 1) ≤ Nat.sqrt W * Nat.sqrt W :=
      Nat.mul_le_mul (by omega) (by omega)
    have := Nat.sqrt_le W
    omega
  omega

/-- A trial-division failure produces an explicit divisor at or above the
starting point whose square is at most `n`. -/
theorem trialDiv_false (fuel : ℕ) :
    ∀ n i, trialDiv fuel n i = false →
      ∃ d, i ≤ d ∧ d * d ≤ n ∧ n % d = 0 := by
  induction fuel with
  | zero => intro n i h; simp [trialDiv] at h
  | succ m ih =>
    intro n i h
    simp only [trialDiv] at h
    split_ifs at h with h1 h2
    · exact ⟨i, le_refl i, h1, h2⟩
    · obtain ⟨d, hd1, hd2, hd3⟩ := ih n (i + 2) h
      exact ⟨d, by omega, hd2, hd3⟩

/-- A composite `W ≥ 3` rejected by `isPrime` has a divisor `e` with
`2 ≤ e ≤ √W + 1`. -/
theorem exists_small_divisor (W : ℕ) (hp : codeIsPrime W = false)
    (h3 : 3 ≤ W) : ∃ e, 2 ≤ e ∧ e ≤ Nat.sqrt W + 1 ∧ e ∣ W := by
  unfold codeIsPrime at hp
  rw [if_neg (by omega), if_neg (by omega)] at hp
  by_cases h2 : W % 2 = 0
  · refine ⟨2, le_refl 2, ?_, Nat.dvd_of_mod_eq_zero h2⟩
    have : 1 ≤ Nat.sqrt W := Nat.le_sqrt.mpr (by omega)
    omega
  · rw [if_neg h2] at hp
    obtain ⟨d, hd1, hd2, hd3⟩ := trialDiv_false W W 3 hp
    refine ⟨d, by omega, ?_, Nat.dvd_of_mod_eq_zero hd3⟩
    have : d ≤ Nat.sqrt W := Nat.le_sqrt.mpr hd2
    omega

/-- Claim C7: for every non-prime `W ≥ 1` the partitioner terminates with
`xdim * ydim = W`, both factors positive, where the pre-swap factor is
the largest divisor of `W` at most `⌊√W⌋ + 1` (at worst 1), and the pair
is swapped exactly when `NYPROB > NXPROB` and `ydim < xdim`. -/
theorem claim7_partitioner (W : ℕ) (hW : 1 ≤ W)
    (hp : codeIsPrime W = false) :
    (partitionDims W).1 * (partitionDims W).2 = W ∧
    1 ≤ (partitionDims W).1 ∧ 1 ≤ (partitionDims W).2 ∧
    scanDiv W (Nat.sqrt W + 1) ∣ W ∧
    1 ≤ scanDiv W (Nat.sqrt W + 1) ∧
    scanDiv W (Nat.sqrt W + 1) ≤ Nat.sqrt W + 1 ∧
    (∀ e, e ∣ W → e ≤ Nat.sqrt W + 1 → e ≤ scanDiv W (Nat.sqrt W + 1)) ∧
    partitionDims W =
      (if NYPROB > NXPROB ∧
          W / scanDiv W (Nat.sqrt W + 1) < scanDiv W (Nat.sqrt W + 1) then
        (W / scanDiv W (Nat.sqrt W + 1), scanDiv W (Nat.sqrt W + 1))
      else (scanDiv W (Nat.sqrt W + 1), W / scanDiv W (Nat.sqrt W + 1))) := by
  obtain ⟨hdvd, hd1, hdle⟩ := scanDiv_dvd W hW (Nat.sqrt W + 1) (by omega)
  have hq1 : 1 ≤ W / scanDiv W (Nat.sqrt W + 1) :=
    Nat.div_pos (Nat.le_of_dvd (by omega) hdvd) (by omega)
  refine ⟨partitionDims_mul W hW, ?_, ?_, hdvd, hd1, hdle,
    fun e he hle => scanDiv_max W (Nat.sqrt W + 1) e he hle, rfl⟩ <;>
  · unfold partitionDims
    split_ifs <;> simp only <;> omega

/-- Witness for claim C7 at `W = 6` (factored `2 x 3`). -/
theorem claim7_witness :
    (partitionDims 6).1 * (partitionDims 6).2 = 6 ∧
    1 ≤ (partitionDims 6).1 :=
  ⟨(claim7_partitioner 6 (by norm_num) (by decide)).1,
   (claim7_partitioner 6 (by norm_num) (by decide)).2.1⟩

/-- For composite `W ≥ 2` both partition factors are at least 2. -/
theorem partitionDims_ge_two (W : ℕ) (hp : codeIsPrime W = false)
    (hW : 2 ≤ W) :
    2 ≤ (partitionDims W).1 ∧ 2 ≤ (partitionDims W).2 := by
  have hW2 : W ≠ 2 := by
    rintro rfl
    simp [codeIsPrime] at hp
  have hW3 : 3 ≤ W := by omega
  obtain ⟨e, he2, hele, hedvd⟩ := exists_small_divisor W hp hW3
  obtain ⟨hdvd, hd1, hdle⟩ := scanDiv_dvd W (by omega) (Nat.sqrt W + 1)
    (by omega)
  have hd2 : 2 ≤ scanDiv W (Nat.sqrt W + 1) :=
    le_trans he2 (scanDiv_max W (Nat.sqrt W + 1) e hedvd hele)
  have hq2 : 2 ≤ W / scanDiv W (Nat.sqrt W + 1) := by
    by_contra hq
    have hq1 : 1 ≤ W / scanDiv W (Nat.sqrt W + 1) :=
      Nat.div_pos (Nat.le_of_dvd (by omega) hdvd) (by omega)
    have heq1 : W / scanDiv W (Nat.sqrt W + 1) = 1 := by omega
    have hmul := Nat.mul_div_cancel' hdvd
    rw [heq1, Nat.mul_one] at hmul
    have hs := sqrt_add_two_le W hW3
    omega
  unfold partitionDims
  split_ifs
  · exact ⟨hq2, hd2⟩
  · exact ⟨hd2, hq2⟩

/-- The four neighbor fields each worker receives (or, for the master,
keeps); `none` is the no-neighbor sentinel (`MPI_PROC_NULL`). -/
structure Neighbors where
  left : Option ℕ
  right : Option ℕ
  up : Option ℕ
  down : Option ℕ
deriving DecidableEq

/-- The neighbor assignment of `main`: for worker `i ≥ 1` the four
threshold tests of the distribution loop; for the master (`i = 0`) the
separate assignment `left = up = NULL`, `right = 1` and `down = ydim`
unless there is a single worker. -/
def assignedNeighbors (W i : ℕ) : Neighbors :=
  if i = 0 then
    { left := none, up := none,
      right := if W = 1 then none else some 1,
      down := if W = 1 then none else some (partitionDims W).2 }
  else
    { up := if i < (partitionDims W).2 then none
        else some (i - (partitionDims W).2),
      down := if ((partitionDims W).1 - 1) * (partitionDims W).2 ≤ i then none
        else some (i + (partitionDims W).2),
      left := if i % (partitionDims W).2 = 0 then none else some (i - 1),
      right := if i % (partitionDims W).2 = (partitionDims W).2 - 1 then none
        else some (i + 1) }

/-- The neighbor relation as the claim states it, for a worker at row
`r = i / ydim`, column `c = i % ydim` of the block grid: a sentinel
exactly on the first/last block row/column, the adjacent index
otherwise. -/
def specNeighbors (W i : ℕ) : Neighbors :=
  { up := if i / (partitionDims W).2 = 0 then none
      else some (i - (partitionDims W).2),
    down := if i / (partitionDims W).2 = (partitionDims W).1 - 1 then none
      else some (i + (partitionDims W).2),
    left := if i % (partitionDims W).2 = 0 then none else some (i - 1),
    right := if i % (partitionDims W).2 = (partitionDims W).2 - 1 then none
      else some (i + 1) }

/-- Claim C8: for every non-prime worker count and every worker index
(master included), the assigned neighbors are exactly the row-major
block-grid neighbors with sentinels on the grid edges. -/
theorem claim8_neighbors (W i : ℕ) (hp : codeIsPrime W = false)
    (hW : 1 ≤ W) (hi : i < W) :
    assignedNeighbors W i = specNeighbors W i := by
  rcases eq_or_lt_of_le hW with h1 | h2
  · have hW1 : W = 1 := h1.symm
    subst hW1
    have hi0 : i = 0 := by omega
    subst hi0
    decide
  · have hdims := partitionDims_ge_two W hp (by omega)
    have hprod := partitionDims_mul W (by omega)
    rcases Nat.eq_zero_or_pos i with hi0 | hipos
    · subst hi0
      unfold assignedNeighbors specNeighbors
      rw [if_pos rfl]
      have hWne : W ≠ 1 := by omega
      simp only [if_neg hWne, Neighbors.mk.injEq]
      refine ⟨?_, ?_, ?_, ?_⟩
      · rw [Nat.zero_mod, if_pos rfl]
      · rw [Nat.zero_mod, if_neg (by omega)]
      · rw [Nat.zero_div, if_pos rfl]
      · rw [Nat.zero_div, if_neg (by omega), Nat.zero_add]
    · unfold assignedNeighbors specNeighbors
      rw [if_neg (by omega)]
      have hyd : 0 < (partitionDims W).2 := by omega
      have hup : i / (partitionDims W).2 = 0 ↔ i < (partitionDims W).2 :=
        Nat.div_eq_zero_iff hyd
      have hdown : ((partitionDims W).1 - 1) * (partitionDims W).2 ≤ i ↔
          i / (partitionDims W).2 = (partitionDims W).1 - 1 := by
        constructor
        · intro hle
          have hlt : i / (partitionDims W).2 < (partitionDims W).1 :=
            (Nat.div_lt_iff_lt_mul hyd).mpr (by rw [hprod]; exact hi)
          have hge : (partitionDims W).1 - 1 ≤ i / (partitionDims W).2 :=
            (Nat.le_div_iff_mul_le hyd).mpr hle
          omega
        · intro heq
          exact (Nat.le_div_iff_mul_le hyd).mp (le_of_eq heq.symm)
      simp only [Neighbors.mk.injEq, true_and]
      refine ⟨?_, ?_⟩
      · exact if_congr hup.symm rfl rfl
      · exact if_congr hdown rfl rfl

/-- Witness for claim C8: `W = 4` (a `2 x 2` block grid), worker 1. -/
theorem claim8_witness : assignedNeighbors 4 1 = specNeighbors 4 1 :=
  claim8_neighbors 4 1 (by decide) (by decide) (by decide)

/-! ## Configuration checking (CLI arguments and launch validation) -/

/-- The configuration-check phase of `main`, in program order: more than
one positional argument (`argc > 2`) or a non-positive thread count
returns 32 before `MPI_Init` or any grid work; then the master aborts the
whole run with 22 if the worker count is prime or `NXPROB*NYPROB` is not
divisible by it, before anything is scattered.  `threadArg` is the
`strtol` result of the single argument (used only when `argc = 2`);
an error value means no simulation state is ever built. -/
def configCheck (argc : ℕ) (threadArg : ℤ) (W : ℕ) : Except ℕ Unit :=
  if 2 < argc then Except.error 32
  else if (if argc = 2 then threadArg else 1) ≤ 0 then Except.error 32
  else if codeIsPrime W then Except.error 22
  else if (NXPROB * NYPROB) % W ≠ 0 then Except.error 22
  else Except.ok ()

/-- Claim C10: each configuration error aborts with its distinguishing
non-zero status (32 for CLI errors before MPI/grid work, 22 for prime or
non-dividing worker counts before any scatter), and a valid configuration
passes. -/
theorem claim10_config_errors (argc : ℕ) (threadArg : ℤ) (W : ℕ)
    (hargc : 1 ≤ argc) :
    (2 < argc → configCheck argc threadArg W = Except.error 32) ∧
    (argc = 2 → threadArg ≤ 0 →
      configCheck argc threadArg W = Except.error 32) ∧
    (argc ≤ 2 → (argc = 2 → 0 < threadArg) → codeIsPrime W = true →
      configCheck argc threadArg W = Except.error 22) ∧
    (argc ≤ 2 → (argc = 2 → 0 < threadArg) → codeIsPrime W = false →
      (NXPROB * NYPROB) % W ≠ 0 →
      configCheck argc threadArg W = Except.error 22) ∧
    (argc ≤ 2 → (argc = 2 → 0 < threadArg) → codeIsPrime W = false →
      (NXPROB * NYPROB) % W = 0 →
      configCheck argc threadArg W = Except.ok ()) ∧
    (32 : ℕ) ≠ 22 := by
  have htc : ∀ (h2 : argc ≤ 2), (argc = 2 → 0 < threadArg) →
      ¬((if argc = 2 then threadArg else 1) ≤ 0) := by
    intro h2 hpos
    split_ifs with h
    · have := hpos h
      omega
    · omega
  refine ⟨?_, ?_, ?_, ?_, ?_, by norm_num⟩
  · intro h
    unfold configCheck
    rw [if_pos h]
  · intro h2 hle
    unfold configCheck
    rw [if_neg (by omega), if_pos (by rw [if_pos h2]; exact hle)]
  · intro h2 hpos hw
    unfold configCheck
    rw [if_neg (by omega), if_neg (htc h2 hpos), if_pos hw]
  · intro h2 hpos hw hnd
    unfold configCheck
    rw [if_neg (by omega), if_neg (htc h2 hpos), if_neg (by rw [hw]; exact
      Bool.false_ne_true), if_pos hnd]
  · intro h2 hpos hw hd
    unfold configCheck
    rw [if_neg (by omega), if_neg (htc h2 hpos), if_neg (by rw [hw]; exact
      Bool.false_ne_true), if_neg (fun hn => hn hd)]

/-- Witness for claim C10 on each configuration outcome. -/
theorem claim10_witness :
    configCheck 3 5 4 = Except.error 32 ∧
    configCheck 2 (-1) 4 = Except.error 32 ∧
    configCheck 1 0 5 = Except.error 22 ∧
    configCheck 1 0 6 = Except.error 22 ∧
    configCheck 1 0 4 = Except.ok () :=
  ⟨(claim10_config_errors 3 5 4 (by norm_num)).1 (by norm_num),
   (claim10_config_errors 2 (-1) 4 (by norm_num)).2.1 rfl (by norm_num),
   (claim10_config_errors 1 0 5 (by norm_num)).2.2.1 (by norm_num)
     (by omega) (by decide),
   (claim10_config_errors 1 0 6 (by norm_num)).2.2.2.1 (by norm_num)
     (by omega) (by decide) (by decide),
   (claim10_config_errors 1 0 4 (by norm_num)).2.2.2.2.1 (by norm_num)
     (by omega) (by decide) (by decide)⟩

end Heat2D
